import Mathlib

/-!
Shallow embedding of the Trading-Agents analysis pipeline
(`scripts/unified_analysis.py`, `scripts/simple_chart.py`,
`old_analysis/visualize_trading_decision.py`) and proofs about it.
Prices are modelled as exact rationals; Python's `round(x, 2)` is modelled
as round-half-to-even at two decimal places.
-/

namespace TradingAgentsSpec

/-- Model of Python `s.upper()` as a character list. -/
def upperChars (s : String) : List Char := s.data.map Char.toUpper

/-- Character-list version of "pat starts the list". -/
def leadsWith : List Char → List Char → Bool
  | [], _ => true
  | _ :: _, [] => false
  | a :: as, b :: bs => if a = b then leadsWith as bs else false

/-- Character-list substring test: does `pat` occur contiguously in the list? -/
def hasSub (pat : List Char) : List Char → Bool
  | [] => leadsWith pat []
  | c :: rest => leadsWith pat (c :: rest) || hasSub pat rest

/-- Model of Python `kw in text.upper()`. -/
def pyIn (kw text : String) : Bool := hasSub kw.data (upperChars text)

/-- Drop leading whitespace characters from a character list. -/
def dropWS : List Char → List Char
  | [] => []
  | c :: cs => if c.isWhitespace then dropWS cs else c :: cs

/-- Model of Python `ticker.upper().strip()` (unified_analysis.py line 152):
uppercase every character, then strip whitespace from both ends. -/
def normalizeTicker (s : String) : String :=
  String.mk ((dropWS ((dropWS (s.data.map Char.toUpper)).reverse)).reverse)

/-- Decision classifier of `simple_chart.create_simple_chart` (lines 56-61):
`if 'BUY' in final_decision.upper(): ... elif 'SELL' ... else 'HOLD'`. -/
def classifyDecision (final_decision : String) : String :=
  if pyIn "BUY" final_decision then "BUY"
  else if pyIn "SELL" final_decision then "SELL"
  else "HOLD"

/-- Decision extraction of `visualize_trading_decision.extract_price_levels`
(lines 68-74): `if 'HOLD' in ...: elif 'BUY' ...: elif 'SELL' ...`, with the
default `'HOLD'` coming from the initial `levels` dict. -/
def extractDecision (final_decision : String) : String :=
  if pyIn "HOLD" final_decision then "HOLD"
  else if pyIn "BUY" final_decision then "BUY"
  else if pyIn "SELL" final_decision then "SELL"
  else "HOLD"

/-- Round a rational to the nearest integer, ties to even (Python 3 `round`). -/
def roundHE (q : ℚ) : ℤ :=
  if q - ⌊q⌋ < 1/2 then ⌊q⌋
  else if (1 : ℚ)/2 < q - ⌊q⌋ then ⌊q⌋ + 1
  else if ⌊q⌋ % 2 = 0 then ⌊q⌋ else ⌊q⌋ + 1

/-- Model of Python `round(x, 2)`. -/
def round2 (x : ℚ) : ℚ := (roundHE (x * 100) : ℚ) / 100

/-- `support = round(current_price * 0.92, 2)`
(unified_analysis.py line 336, simple_chart.py line 44). -/
def supportOf (current_price : ℚ) : ℚ := round2 (current_price * (92/100))

/-- `resistance = round(current_price * 1.10, 2)`
(unified_analysis.py line 337, simple_chart.py line 45). -/
def resistanceOf (current_price : ℚ) : ℚ := round2 (current_price * (110/100))

/-- `hist['Close'].min()` over a close series (0 on the empty series,
which the code guards against via `hist.empty`). -/
def listMin : List ℚ → ℚ
  | [] => 0
  | c :: cs => cs.foldl min c

/-- `hist['Close'].max()` over a close series. -/
def listMax : List ℚ → ℚ
  | [] => 0
  | c :: cs => cs.foldl max c

/-- Chart band boundaries of `_save_realtime_chart` (lines 335-355) /
`create_simple_chart` (lines 91-105): buy-band bottom `min(closes)*0.95`,
support, resistance, sell-band top `max(closes)*1.05`. -/
def chartBands (closes : List ℚ) (current_price : ℚ) : ℚ × ℚ × ℚ × ℚ :=
  (listMin closes * (95/100), supportOf current_price,
   resistanceOf current_price, listMax closes * (105/100))

/-- The named report sections of a TradingAgents result dict; each is
`result.get(key)`, hence optional. -/
structure AnalysisResult where
  market_report : Option String
  sentiment_report : Option String
  news_report : Option String
  fundamentals_report : Option String
  trader_investment_plan : Option String
  investment_plan : Option String
deriving DecidableEq, Repr

/-- The price dict built by `get_realtime_price` (unified_analysis.py
lines 92-102); the price fields come from `info.get(...)` and are optional. -/
structure PriceData where
  ticker : String
  name : String
  current_price : Option ℚ
  previous_close : Option ℚ
  change_pct : Option ℚ
  sector : String
  market_cap : ℚ
  currency : String
  timestamp : String
deriving DecidableEq, Repr

/-- A JSON value, as produced by `json.dump` and read back by `json.load`. -/
inductive JValue where
  | null : JValue
  | str : String → JValue
  | num : ℚ → JValue
  | obj : List (String × JValue) → JValue
deriving Repr

/-- First-match association-list lookup (Python dict field access). -/
def lookupD {V : Type} : List (String × V) → String → Option V
  | [], _ => none
  | (k, v) :: rest, key => if k = key then some v else lookupD rest key

/-- Read a field of a JSON object. -/
def jGet : JValue → String → Option JValue
  | .obj fields, key => lookupD fields key
  | _, _ => none

/-- `None`-aware JSON encoding of an optional string. -/
def jsonOfOptStr : Option String → JValue
  | none => .null
  | some s => .str s

/-- `None`-aware JSON encoding of an optional number. -/
def jsonOfOptNum : Option ℚ → JValue
  | none => .null
  | some q => .num q

/-- JSON encoding of the optional `price_data` dict. -/
def jsonOfPriceOpt : Option PriceData → JValue
  | none => .null
  | some p => .obj [("ticker", .str p.ticker), ("name", .str p.name),
      ("current_price", jsonOfOptNum p.current_price),
      ("previous_close", jsonOfOptNum p.previous_close),
      ("change_pct", jsonOfOptNum p.change_pct), ("sector", .str p.sector),
      ("market_cap", .num p.market_cap), ("currency", .str p.currency),
      ("timestamp", .str p.timestamp)]

/-- The six report sections as an ordered key/value list, in the order used
by `_save_results`. -/
def reportsList (r : AnalysisResult) : List (String × Option String) :=
  [("market_report", r.market_report), ("sentiment_report", r.sentiment_report),
   ("news_report", r.news_report), ("fundamentals_report", r.fundamentals_report),
   ("trader_investment_plan", r.trader_investment_plan),
   ("investment_plan", r.investment_plan)]

/-- The `json_data` dict assembled by `_save_results`
(unified_analysis.py lines 274-288) and written with `json.dump`. -/
def buildJsonData (ticker trade_date timestamp decision : String)
    (price_data : Option PriceData) (result : AnalysisResult) : JValue :=
  .obj [("ticker", .str ticker), ("trade_date", .str trade_date),
        ("analysis_timestamp", .str timestamp), ("decision", .str decision),
        ("price_data", jsonOfPriceOpt price_data),
        ("reports", .obj
          [("market_report", jsonOfOptStr result.market_report),
           ("sentiment_report", jsonOfOptStr result.sentiment_report),
           ("news_report", jsonOfOptStr result.news_report),
           ("fundamentals_report", jsonOfOptStr result.fundamentals_report),
           ("trader_investment_plan", jsonOfOptStr result.trader_investment_plan),
           ("investment_plan", jsonOfOptStr result.investment_plan)])]

/-- Read back the decision string of a structured artifact. -/
def readDecision (j : JValue) : Option String :=
  match jGet j "decision" with
  | some (.str s) => some s
  | _ => none

/-- Read back one report section of a structured artifact. -/
def readReport (j : JValue) (key : String) : Option JValue :=
  match jGet j "reports" with
  | some rep => jGet rep key
  | none => none

/-- Is a JSON value `null`? -/
def isNullJ : JValue → Bool
  | .null => true
  | _ => false

/-- The keys of the read-back `reports` object whose value is not `null`. -/
def nonNullKeysOf (j : JValue) : List String :=
  match jGet j "reports" with
  | some (.obj fields) => (fields.filter (fun p => !isNullJ p.2)).map Prod.fst
  | _ => []

/-- The report-section keys that were passed in with a non-null value. -/
def presentKeys (r : AnalysisResult) : List String :=
  ((reportsList r).filter (fun p => p.2.isSome)).map Prod.fst

/-- The environment of one `analyze` call: outcome of everything before the
`try` block (`initialize`), of the market-data provider call inside
`get_realtime_price`, of the engine call `self.ta.propagate`, and of the
unguarded filesystem writes inside `_save_results`; plus the wall-clock
strings used for date defaulting and the artifact timestamp. -/
structure AnalyzeEnv where
  preErr : Option String
  fetch : String → Except String PriceData
  engine : String → String → Except String (AnalysisResult × String)
  saveFS : Except String Unit
  today : String
  yesterday : String
  timestamp : String

/-- What one `analyze` call produces: its return value (or a propagated
exception), the error lines it printed, and the structured artifact it
wrote (if any). -/
structure AnalyzeOutput where
  ret : Except String (Option AnalysisResult × Option String)
  log : List String
  saved : Option JValue

/-- Trade-date defaulting of `analyze` (unified_analysis.py lines 155-158):
today when live prices are requested, else the previous day. -/
def resolveDate (env : AnalyzeEnv) (trade_date : Option String)
    (use_realtime : Bool) : String :=
  match trade_date with
  | some d => d
  | none => if use_realtime then env.today else env.yesterday

/-- `get_realtime_price` (unified_analysis.py lines 73-108): the provider
call is wrapped in `try`, every exception yields `None`. -/
def get_realtime_price (env : AnalyzeEnv) (ticker : String) : Option PriceData :=
  match env.fetch ticker with
  | .ok p => some p
  | .error _ => none

/-- `UnifiedAnalysis.analyze` (unified_analysis.py lines 134-194): normalize
the ticker, resolve the date, best-effort price fetch, then a `try` block
containing the engine call, result printing and `_save_results`, whose
`except Exception` prints the error and returns `(None, None)`. -/
def analyze (env : AnalyzeEnv) (ticker0 : String) (trade_date0 : Option String)
    (use_realtime : Bool) (save_results : Bool) : AnalyzeOutput :=
  match env.preErr with
  | some e => { ret := .error e, log := [], saved := none }
  | none =>
    let ticker := normalizeTicker ticker0
    let trade_date := resolveDate env trade_date0 use_realtime
    let price_data := if use_realtime then get_realtime_price env ticker else none
    match env.engine ticker trade_date with
    | .error e =>
        { ret := .ok (none, none), log := ["[ERROR] Analysis failed: " ++ e],
          saved := none }
    | .ok (result, decision) =>
        if save_results then
          match env.saveFS with
          | .error e =>
              { ret := .ok (none, none),
                log := ["[ERROR] Analysis failed: " ++ e], saved := none }
          | .ok _ =>
              { ret := .ok (some result, some decision), log := [],
                saved := some (buildJsonData ticker trade_date env.timestamp
                  decision price_data result) }
        else { ret := .ok (some result, some decision), log := [], saved := none }

/-- Python dict assignment `results[ticker] = v`: replace in place when the
key exists, else append. -/
def dictInsert {V : Type} (m : List (String × V)) (key : String) (v : V) :
    List (String × V) :=
  if (lookupD m key).isSome then
    m.map (fun p => if p.1 = key then (key, v) else p)
  else m ++ [(key, v)]

/-- The `except` wrapper of the batch loop (unified_analysis.py lines
458-468): an exception escaping `analyze` is recorded as `(None, None)`. -/
def exceptEntry : Except String (Option AnalysisResult × Option String) →
    Option AnalysisResult × Option String
  | .ok rd => rd
  | .error _ => (none, none)

/-- The loop of `batch_analyze`, with the running call index and the
accumulated results dict. -/
def batchGo (entryF : Nat → String → Option AnalysisResult × Option String) :
    Nat → List String → List (String × (Option AnalysisResult × Option String)) →
    List (String × (Option AnalysisResult × Option String))
  | _, [], acc => acc
  | i, t :: ts, acc => batchGo entryF (i + 1) ts (dictInsert acc t (entryF i t))

/-- The outcome recorded for the `i`-th batch iteration on ticker `t`:
`analyze` is called with `save_results=True`, and any exception is caught
and recorded as `(None, None)`. Each iteration gets its own environment
`envs i`, since the external collaborators may behave differently per call. -/
def batchEntry (envs : Nat → AnalyzeEnv) (trade_date : Option String)
    (use_realtime : Bool) (i : Nat) (t : String) :
    Option AnalysisResult × Option String :=
  exceptEntry (analyze (envs i) t trade_date use_realtime true).ret

/-- `UnifiedAnalysis.batch_analyze` (unified_analysis.py lines 436-473):
iterate the tickers in order, recording each outcome in the results dict
under the raw ticker string. -/
def batch_analyze (envs : Nat → AnalyzeEnv) (tickers : List String)
    (trade_date : Option String) (use_realtime : Bool) :
    List (String × (Option AnalysisResult × Option String)) :=
  batchGo (batchEntry envs trade_date use_realtime) 0 tickers []

/-- Index of the last occurrence of `t` in a list, if any. -/
def lastIdxOf : List String → String → Option Nat
  | [], _ => none
  | x :: xs, t =>
      match lastIdxOf xs t with
      | some n => some (n + 1)
      | none => if x = t then some 0 else none

/-- The `decisions` list of `_print_batch_summary` (unified_analysis.py
lines 481-485): entries whose decision is truthy (`if decision:`). -/
def batchDecisions
    (results : List (String × (Option AnalysisResult × Option String))) :
    List (String × String) :=
  results.filterMap (fun p =>
    match p.2.2 with
    | some d => if d.isEmpty then none else some (p.1, d)
    | none => none)

/-- `buy_count` of `_print_batch_summary` (line 488). -/
def buy_count
    (results : List (String × (Option AnalysisResult × Option String))) : Nat :=
  (batchDecisions results).countP (fun td => pyIn "BUY" td.2)

/-- `sell_count` of `_print_batch_summary` (line 489). -/
def sell_count
    (results : List (String × (Option AnalysisResult × Option String))) : Nat :=
  (batchDecisions results).countP (fun td => pyIn "SELL" td.2)

/-- `hold_count` of `_print_batch_summary` (line 490). -/
def hold_count
    (results : List (String × (Option AnalysisResult × Option String))) : Nat :=
  (batchDecisions results).countP (fun td => pyIn "HOLD" td.2)

/-- Truthiness of an optional decision string (Python `if decision:`). -/
def truthy : Option String → Bool
  | none => false
  | some s => !s.isEmpty

/-- The number of batch entries whose decision is non-null. -/
def nonNullCount
    (results : List (String × (Option AnalysisResult × Option String))) : Nat :=
  results.countP (fun p => p.2.2.isSome)


theorem floor_le_roundHE (q : ℚ) : ⌊q⌋ ≤ roundHE q := by
  unfold roundHE; split_ifs <;> omega

theorem roundHE_le_floor_add_one (q : ℚ) : roundHE q ≤ ⌊q⌋ + 1 := by
  unfold roundHE; split_ifs <;> omega

theorem roundHE_le (q : ℚ) : (roundHE q : ℚ) ≤ q + 1/2 := by
  have h1 := Int.floor_le q
  have h2 := Int.lt_floor_add_one q
  unfold roundHE; split_ifs <;> push_cast <;> linarith

theorem le_roundHE (q : ℚ) : q - 1/2 ≤ (roundHE q : ℚ) := by
  have h1 := Int.floor_le q
  have h2 := Int.lt_floor_add_one q
  unfold roundHE; split_ifs <;> push_cast <;> linarith

theorem roundHE_mono {x y : ℚ} (h : x ≤ y) : roundHE x ≤ roundHE y := by
  rcases lt_or_le ⌊x⌋ ⌊y⌋ with hf | hf
  · calc roundHE x ≤ ⌊x⌋ + 1 := roundHE_le_floor_add_one x
      _ ≤ ⌊y⌋ := by omega
      _ ≤ roundHE y := floor_le_roundHE y
  · have hfe : ⌊x⌋ = ⌊y⌋ := le_antisymm (Int.floor_mono h) hf
    unfold roundHE
    rw [hfe]
    split_ifs <;> first | omega | (exfalso; linarith)

/-- Claim C2 (corrected). The zone formulas are `round(price*0.92, 2)` and
`round(price*1.10, 2)` as claimed, and the strict ordering
`support < current_price < resistance` holds for every price of at least
1/16; for smaller positive prices the rounding to two decimals can collapse
the zones (see the counterexample at price 1/100). The claimed scenario
price 100 yields support 92 and resistance 110. -/
theorem zone_ordering :
    (∀ p : ℚ, 1/16 ≤ p → supportOf p < p ∧ p < resistanceOf p) ∧
    supportOf 100 = 92 ∧ resistanceOf 100 = 110 := by
  refine ⟨fun p hp => ⟨?_, ?_⟩, ?_, ?_⟩
  · unfold supportOf round2
    rw [div_lt_iff₀ (by norm_num : (0:ℚ) < 100)]
    rcases eq_or_lt_of_le hp with heq | hlt
    · rw [← heq]
      unfold roundHE
      norm_num
    · have h1 := roundHE_le (p * (92/100) * 100)
      linarith
  · unfold resistanceOf round2
    rw [lt_div_iff₀ (by norm_num : (0:ℚ) < 100)]
    have h1 := le_roundHE (p * (110/100) * 100)
    linarith
  · unfold supportOf round2 roundHE
    norm_num
  · unfold resistanceOf round2 roundHE
    norm_num

unseal Rat.mul Rat.sub Rat.add Rat.inv in
theorem zone_ordering_cex :
    (0:ℚ) < 1/100 ∧ supportOf (1/100) = 1/100 ∧ resistanceOf (1/100) = 1/100 ∧
    ¬ (supportOf (1/100) < 1/100) := by decide

unseal Rat.mul Rat.sub Rat.add Rat.inv in
theorem zone_ordering_witness : supportOf 100 < 100 ∧ (100:ℚ) < resistanceOf 100 :=
  zone_ordering.1 100 (by decide)

/-- Claim C7 (corrected). For every close series and current price:
support never exceeds resistance when the price is non-negative, and each
outer band inequality (`min(closes)*0.95 <= support`,
`resistance <= max(closes)*1.05`) holds under the stated sufficient
condition tying the price to the historical extremes; without such a
condition the chain fails (see the counterexample with a flat series). -/
theorem chart_band_ordering (closes : List ℚ) (p : ℚ) :
    (0 ≤ p → (chartBands closes p).2.1 ≤ (chartBands closes p).2.2.1) ∧
    (listMin closes * (95/100) + 1/200 ≤ p * (92/100) →
      (chartBands closes p).1 ≤ (chartBands closes p).2.1) ∧
    (p * (110/100) + 1/200 ≤ listMax closes * (105/100) →
      (chartBands closes p).2.2.1 ≤ (chartBands closes p).2.2.2) := by
  refine ⟨fun hp => ?_, fun h => ?_, fun h => ?_⟩
  · show supportOf p ≤ resistanceOf p
    unfold supportOf resistanceOf round2
    have harg : p * (92/100) * 100 ≤ p * (110/100) * 100 := by nlinarith
    have := roundHE_mono harg
    have hc : ((roundHE (p * (92/100) * 100) : ℚ)) ≤ (roundHE (p * (110/100) * 100) : ℚ) := by
      exact_mod_cast this
    linarith
  · show listMin closes * (95/100) ≤ supportOf p
    unfold supportOf round2
    rw [le_div_iff₀ (by norm_num : (0:ℚ) < 100)]
    have h1 := le_roundHE (p * (92/100) * 100)
    linarith
  · show resistanceOf p ≤ listMax closes * (105/100)
    unfold resistanceOf round2
    rw [div_le_iff₀ (by norm_num : (0:ℚ) < 100)]
    have h1 := roundHE_le (p * (110/100) * 100)
    linarith

unseal Rat.mul Rat.sub Rat.add Rat.inv in
theorem chart_band_cex :
    ¬ ((chartBands [100] 100).1 ≤ (chartBands [100] 100).2.1) ∧
    ¬ ((chartBands [100] 100).2.2.1 ≤ (chartBands [100] 100).2.2.2) := by decide

unseal Rat.mul Rat.sub Rat.add Rat.inv in
theorem chart_band_witness :
    (chartBands [50, 200] 100).1 ≤ (chartBands [50, 200] 100).2.1 ∧
    (chartBands [50, 200] 100).2.1 ≤ (chartBands [50, 200] 100).2.2.1 ∧
    (chartBands [50, 200] 100).2.2.1 ≤ (chartBands [50, 200] 100).2.2.2 := by
  obtain ⟨h1, h2, h3⟩ := chart_band_ordering [50, 200] 100
  exact ⟨h2 (by decide), h1 (by decide), h3 (by decide)⟩

/-- Claim C1 (corrected). The simple-chart classifier checks BUY, then
SELL, and defaults to HOLD (so text with both BUY and SELL classifies as
BUY), but the legacy `extract_price_levels` classifier checks HOLD first,
then BUY, then SELL, also defaulting to HOLD, so the claimed uniform
BUY-SELL-HOLD priority does not hold for it. -/
theorem decision_priority (s : String) :
    (pyIn "BUY" s = true → classifyDecision s = "BUY") ∧
    (pyIn "BUY" s = false → pyIn "SELL" s = true → classifyDecision s = "SELL") ∧
    (pyIn "BUY" s = false → pyIn "SELL" s = false → classifyDecision s = "HOLD") ∧
    (pyIn "HOLD" s = true → extractDecision s = "HOLD") ∧
    (pyIn "HOLD" s = false → pyIn "BUY" s = true → extractDecision s = "BUY") ∧
    (pyIn "HOLD" s = false → pyIn "BUY" s = false → pyIn "SELL" s = false →
      extractDecision s = "HOLD") := by
  refine ⟨fun h1 => ?_, fun h1 h2 => ?_, fun h1 h2 => ?_, fun h1 => ?_,
    fun h1 h2 => ?_, fun h1 h2 h3 => ?_⟩ <;>
    simp_all [classifyDecision, extractDecision]

theorem decision_priority_cex :
    pyIn "BUY" "BUY and HOLD" = true ∧
    extractDecision "BUY and HOLD" = "HOLD" ∧
    classifyDecision "BUY and HOLD" = "BUY" := by decide

theorem decision_priority_witness :
    classifyDecision "We recommend to BUY and avoid SELL" = "BUY" :=
  (decision_priority "We recommend to BUY and avoid SELL").1 (by decide)

theorem batchDecisions_cons_none {p : String × (Option AnalysisResult × Option String)}
    {rs : List (String × (Option AnalysisResult × Option String))}
    (hp : p.2.2 = none) : batchDecisions (p :: rs) = batchDecisions rs := by
  simp [batchDecisions, hp]

theorem batchDecisions_cons_empty {p : String × (Option AnalysisResult × Option String)}
    {rs : List (String × (Option AnalysisResult × Option String))} {d : String}
    (hp : p.2.2 = some d) (hd : d.isEmpty = true) :
    batchDecisions (p :: rs) = batchDecisions rs := by
  simp [batchDecisions, hp, hd]

theorem batchDecisions_cons_some {p : String × (Option AnalysisResult × Option String)}
    {rs : List (String × (Option AnalysisResult × Option String))} {d : String}
    (hp : p.2.2 = some d) (hd : d.isEmpty = false) :
    batchDecisions (p :: rs) = (p.1, d) :: batchDecisions rs := by
  simp [batchDecisions, hp, hd]

theorem batchDecisions_filter_truthy
    (results : List (String × (Option AnalysisResult × Option String))) :
    batchDecisions (results.filter (fun p => truthy p.2.2)) =
      batchDecisions results := by
  induction results with
  | nil => rfl
  | cons p rs ih =>
    rcases hp : p.2.2 with _ | d
    · rw [List.filter_cons, if_neg (by simp [truthy, hp]),
        batchDecisions_cons_none hp]
      exact ih
    · by_cases hd : d.isEmpty
      · rw [List.filter_cons, if_neg (by simp [truthy, hp, hd]),
          batchDecisions_cons_empty hp hd]
        exact ih
      · have hd' : d.isEmpty = false := by simpa using hd
        rw [List.filter_cons, if_pos (by simp [truthy, hp, hd']),
          batchDecisions_cons_some hp hd', batchDecisions_cons_some hp hd', ih]

theorem batchDecisions_length_le
    (results : List (String × (Option AnalysisResult × Option String))) :
    (batchDecisions results).length ≤ nonNullCount results := by
  induction results with
  | nil => simp [batchDecisions, nonNullCount]
  | cons p rs ih =>
    rcases hp : p.2.2 with _ | d
    · rw [batchDecisions_cons_none hp]
      simp only [nonNullCount, List.countP_cons, hp]
      simp only [nonNullCount] at ih
      omega
    · have hcnt : nonNullCount (p :: rs) = nonNullCount rs + 1 := by
        simp [nonNullCount, List.countP_cons, hp]
      by_cases hd : d.isEmpty
      · rw [batchDecisions_cons_empty hp hd, hcnt]
        omega
      · have hd' : d.isEmpty = false := by simpa using hd
        rw [batchDecisions_cons_some hp hd', hcnt]
        simp only [List.length_cons]
        omega

/-- Claim C6 (corrected). Batch-summary counts: entries whose decision is
`None` (or empty) contribute to no count (removing them changes no count),
and each individual BUY/HOLD/SELL count never exceeds the number of
entries with a non-null decision; the claimed bound on the *sum* fails
because one decision text can contain several keywords, so only
`sum <= 3 * nonNullCount` holds. -/
theorem summary_count_bounds
    (results : List (String × (Option AnalysisResult × Option String))) :
    buy_count (results.filter (fun p => truthy p.2.2)) = buy_count results ∧
    hold_count (results.filter (fun p => truthy p.2.2)) = hold_count results ∧
    sell_count (results.filter (fun p => truthy p.2.2)) = sell_count results ∧
    buy_count results ≤ nonNullCount results ∧
    hold_count results ≤ nonNullCount results ∧
    sell_count results ≤ nonNullCount results ∧
    buy_count results + hold_count results + sell_count results ≤
      3 * nonNullCount results := by
  have hb := batchDecisions_filter_truthy results
  have hlen := batchDecisions_length_le results
  have hb1 : buy_count results ≤ nonNullCount results :=
    le_trans (List.countP_le_length _) hlen
  have hh1 : hold_count results ≤ nonNullCount results :=
    le_trans (List.countP_le_length _) hlen
  have hs1 : sell_count results ≤ nonNullCount results :=
    le_trans (List.countP_le_length _) hlen
  exact ⟨by simp only [buy_count]; rw [hb], by simp only [hold_count]; rw [hb],
    by simp only [sell_count]; rw [hb], hb1, hh1, hs1, by omega⟩

theorem summary_overcount_cex :
    buy_count [("AAA", ((none : Option AnalysisResult), some "BUY SELL HOLD"))] +
      hold_count [("AAA", ((none : Option AnalysisResult), some "BUY SELL HOLD"))] +
      sell_count [("AAA", ((none : Option AnalysisResult), some "BUY SELL HOLD"))] = 3 ∧
    nonNullCount [("AAA", ((none : Option AnalysisResult), some "BUY SELL HOLD"))] = 1 ∧
    ¬ (buy_count [("AAA", ((none : Option AnalysisResult), some "BUY SELL HOLD"))] +
        hold_count [("AAA", ((none : Option AnalysisResult), some "BUY SELL HOLD"))] +
        sell_count [("AAA", ((none : Option AnalysisResult), some "BUY SELL HOLD"))] ≤
      nonNullCount [("AAA", ((none : Option AnalysisResult), some "BUY SELL HOLD"))]) := by
  decide
/-- Claim C3 (confirmed). Any engine failure is caught at the `analyze`
boundary: the call returns `(None, None)` and the error is reported
(printed) instead of the exception propagating. -/
theorem analyze_engine_failure (env : AnalyzeEnv) (t0 : String)
    (td : Option String) (ur sr : Bool) (e : String)
    (hpre : env.preErr = none)
    (heng : env.engine (normalizeTicker t0) (resolveDate env td ur) =
      .error e) :
    (analyze env t0 td ur sr).ret = .ok (none, none) ∧
    ("[ERROR] Analysis failed: " ++ e) ∈ (analyze env t0 td ur sr).log := by
  simp [analyze, hpre, heng]

def demoResult : AnalysisResult :=
  { market_report := some "market text", sentiment_report := none,
    news_report := some "news text", fundamentals_report := none,
    trader_investment_plan := some "plan text", investment_plan := none }

def demoPrice : PriceData :=
  { ticker := "NVDA", name := "NVIDIA Corp", current_price := some 100,
    previous_close := some 99, change_pct := some 1, sector := "Technology",
    market_cap := 1000000, currency := "USD",
    timestamp := "2026-02-20T10:00:00" }

def envOkay : AnalyzeEnv :=
  { preErr := none, fetch := fun _ => .ok demoPrice,
    engine := fun _ _ => .ok (demoResult, "BUY"), saveFS := .ok (),
    today := "2026-02-20", yesterday := "2026-02-19",
    timestamp := "20260220_100000" }

def envEngineFail : AnalyzeEnv := { envOkay with engine := fun _ _ => .error "engine down" }

def envSaveFail : AnalyzeEnv := { envOkay with saveFS := .error "disk full" }

def envFetchFail : AnalyzeEnv := { envOkay with fetch := fun _ => .error "no quote" }

def envCrash : AnalyzeEnv := { envOkay with preErr := some "init crash" }

theorem analyze_engine_failure_witness :
    (analyze envEngineFail "NVDA" none true true).ret = .ok (none, none) ∧
    ("[ERROR] Analysis failed: " ++ "engine down") ∈
      (analyze envEngineFail "NVDA" none true true).log :=
  analyze_engine_failure envEngineFail "NVDA" none true true "engine down" rfl rfl

theorem persist_error_cex :
    (analyze envSaveFail "NVDA" none true true).ret = .ok (none, none) ∧
    (∀ e, (analyze envSaveFail "NVDA" none true true).ret ≠ .error e) := by
  constructor
  · rfl
  · intro e h
    simp [analyze, envSaveFail, envOkay] at h

/-- Claim C4 (corrected). A persistence failure inside `_save_results` is
caught by the same `except Exception` handler as an engine failure, because
`_save_results` is called inside `analyze`'s `try` block: `analyze` returns
`(None, None)` and prints the error instead of propagating it. -/
theorem persist_error_caught (env : AnalyzeEnv) (t0 : String)
    (td : Option String) (ur : Bool) (r : AnalysisResult) (d e : String)
    (hpre : env.preErr = none)
    (heng : env.engine (normalizeTicker t0) (resolveDate env td ur) =
      .ok (r, d))
    (hsave : env.saveFS = .error e) :
    (analyze env t0 td ur true).ret = .ok (none, none) ∧
    ("[ERROR] Analysis failed: " ++ e) ∈ (analyze env t0 td ur true).log := by
  simp [analyze, hpre, heng, hsave]

theorem persist_error_caught_witness :
    (analyze envSaveFail "NVDA" none true true).ret = .ok (none, none) ∧
    ("[ERROR] Analysis failed: " ++ "disk full") ∈
      (analyze envSaveFail "NVDA" none true true).log :=
  persist_error_caught envSaveFail "NVDA" none true demoResult "BUY"
    "disk full" rfl rfl rfl

/-- Claim C8 (confirmed). When the price fetch raises, `analyze` proceeds
with a `None` price snapshot, still calls the engine, returns the engine's
result and decision when the engine succeeds, and the persisted structured
artifact carries a null `price_data` field. -/
theorem analyze_fetch_failure (env : AnalyzeEnv) (t0 : String)
    (td : Option String) (e : String) (r : AnalysisResult) (d : String)
    (hpre : env.preErr = none)
    (hfetch : env.fetch (normalizeTicker t0) = .error e)
    (heng : env.engine (normalizeTicker t0) (resolveDate env td true) =
      .ok (r, d))
    (hsave : env.saveFS = .ok ()) :
    (analyze env t0 td true true).ret = .ok (some r, some d) ∧
    ∃ j, (analyze env t0 td true true).saved = some j ∧
      jGet j "price_data" = some JValue.null := by
  refine ⟨by simp [analyze, hpre, heng, hsave], ?_⟩
  refine ⟨buildJsonData (normalizeTicker t0) (resolveDate env td true)
    env.timestamp d none r, ?_, ?_⟩
  · simp [analyze, hpre, heng, hsave, get_realtime_price, hfetch]
  · simp [buildJsonData, jGet, lookupD, jsonOfPriceOpt]

theorem analyze_fetch_failure_witness :
    (analyze envFetchFail "NVDA" none true true).ret =
      .ok (some demoResult, some "BUY") ∧
    ∃ j, (analyze envFetchFail "NVDA" none true true).saved = some j ∧
      jGet j "price_data" = some JValue.null :=
  analyze_fetch_failure envFetchFail "NVDA" none "no quote" demoResult
    "BUY" rfl rfl rfl rfl
/-- Claim C9 (confirmed). Writing the structured artifact and reading it
back reproduces the decision string exactly, the set of non-null report
keys equals the set of sections passed in with a value, and every section
is stored verbatim (no truncation). -/
theorem json_roundtrip (ticker td ts decision : String)
    (price : Option PriceData) (r : AnalysisResult) :
    readDecision (buildJsonData ticker td ts decision price r) =
      some decision ∧
    nonNullKeysOf (buildJsonData ticker td ts decision price r) =
      presentKeys r ∧
    readReport (buildJsonData ticker td ts decision price r) "market_report" =
      some (jsonOfOptStr r.market_report) ∧
    readReport (buildJsonData ticker td ts decision price r) "sentiment_report" =
      some (jsonOfOptStr r.sentiment_report) ∧
    readReport (buildJsonData ticker td ts decision price r) "news_report" =
      some (jsonOfOptStr r.news_report) ∧
    readReport (buildJsonData ticker td ts decision price r) "fundamentals_report" =
      some (jsonOfOptStr r.fundamentals_report) ∧
    readReport (buildJsonData ticker td ts decision price r) "trader_investment_plan" =
      some (jsonOfOptStr r.trader_investment_plan) ∧
    readReport (buildJsonData ticker td ts decision price r) "investment_plan" =
      some (jsonOfOptStr r.investment_plan) := by
  obtain ⟨m, s, n, f, tp, ip⟩ := r
  cases m <;> cases s <;> cases n <;> cases f <;> cases tp <;> cases ip <;>
    exact ⟨rfl, rfl, rfl, rfl, rfl, rfl, rfl, rfl⟩
theorem keys_map_replace {V : Type} (m : List (String × V)) (k : String) (v : V) :
    (m.map (fun p => if p.1 = k then (k, v) else p)).map Prod.fst =
      m.map Prod.fst := by
  induction m with
  | nil => rfl
  | cons p rest ih => by_cases h : p.1 = k <;> simp [h, ih]

theorem lookupD_isSome_iff {V : Type} (m : List (String × V)) (k : String) :
    (lookupD m k).isSome = true ↔ k ∈ m.map Prod.fst := by
  induction m with
  | nil => simp [lookupD]
  | cons p rest ih =>
    by_cases h : p.1 = k
    · simp [lookupD, h]
    · rw [List.map_cons, List.mem_cons]
      simp only [lookupD, h, if_false]
      rw [ih]
      constructor
      · exact Or.inr
      · rintro (hk | hk)
        · exact absurd hk.symm h
        · exact hk

theorem lookupD_append {V : Type} (m l2 : List (String × V)) (k : String) :
    lookupD (m ++ l2) k =
      match lookupD m k with
      | some v => some v
      | none => lookupD l2 k := by
  induction m with
  | nil => rfl
  | cons p rest ih =>
    by_cases hp : p.1 = k
    · simp [lookupD, hp]
    · simp [lookupD, hp, ih]

theorem lookupD_map_replace {V : Type} (m : List (String × V)) (k : String)
    (v : V) :
    lookupD (m.map (fun p => if p.1 = k then (k, v) else p)) k =
      if (lookupD m k).isSome then some v else none := by
  induction m with
  | nil => rfl
  | cons p rest ih =>
    by_cases hp : p.1 = k
    · rw [List.map_cons, if_pos hp]
      simp [lookupD, hp]
    · rw [List.map_cons, if_neg hp]
      simp [lookupD, hp, ih]

theorem lookupD_map_replace_ne {V : Type} (m : List (String × V)) (k a : String)
    (v : V) (hak : a ≠ k) :
    lookupD (m.map (fun p => if p.1 = k then (k, v) else p)) a =
      lookupD m a := by
  induction m with
  | nil => rfl
  | cons p rest ih =>
    by_cases hp : p.1 = k
    · have hpa : p.1 ≠ a := by rw [hp]; exact Ne.symm hak
      rw [List.map_cons, if_pos hp]
      simp [lookupD, Ne.symm hak, hpa, ih]
    · rw [List.map_cons, if_neg hp]
      by_cases hpa : p.1 = a
      · simp [lookupD, hpa]
      · simp [lookupD, hpa, ih]
theorem keys_dictInsert {V : Type} (m : List (String × V)) (k : String) (v : V) :
    (dictInsert m k v).map Prod.fst =
      if k ∈ m.map Prod.fst then m.map Prod.fst
      else m.map Prod.fst ++ [k] := by
  rw [dictInsert]
  by_cases h : k ∈ m.map Prod.fst
  · rw [if_pos ((lookupD_isSome_iff m k).2 h), keys_map_replace, if_pos h]
  · rw [if_neg (fun hh => h ((lookupD_isSome_iff m k).1 hh)), if_neg h,
      List.map_append]
    rfl

theorem mem_keys_dictInsert {V : Type} (m : List (String × V)) (k a : String)
    (v : V) :
    a ∈ (dictInsert m k v).map Prod.fst ↔ a ∈ m.map Prod.fst ∨ a = k := by
  rw [keys_dictInsert]
  split_ifs with h
  · constructor
    · exact Or.inl
    · rintro (ha | rfl)
      · exact ha
      · exact h
  · simp

theorem nodup_keys_dictInsert {V : Type} (m : List (String × V)) (k : String)
    (v : V) (hm : (m.map Prod.fst).Nodup) :
    ((dictInsert m k v).map Prod.fst).Nodup := by
  rw [keys_dictInsert]
  split_ifs with h
  · exact hm
  · rw [List.nodup_append]
    exact ⟨hm, List.nodup_singleton k, by simp [List.disjoint_singleton, h]⟩

theorem lookupD_dictInsert_self {V : Type} (m : List (String × V)) (k : String)
    (v : V) : lookupD (dictInsert m k v) k = some v := by
  rw [dictInsert]
  by_cases h : (lookupD m k).isSome
  · rw [if_pos h, lookupD_map_replace, if_pos h]
  · have h0 : lookupD m k = none := by
      cases hl : lookupD m k
      · rfl
      · rw [hl] at h; simp at h
    rw [if_neg h, lookupD_append]
    simp [h0, lookupD]

theorem lookupD_dictInsert_ne {V : Type} (m : List (String × V)) (k a : String)
    (v : V) (hak : a ≠ k) :
    lookupD (dictInsert m k v) a = lookupD m a := by
  rw [dictInsert]
  by_cases h : (lookupD m k).isSome
  · rw [if_pos h, lookupD_map_replace_ne m k a v hak]
  · rw [if_neg h, lookupD_append]
    cases hl : lookupD m a
    · simp [lookupD, Ne.symm hak]
    · simp

theorem mem_keys_batchGo
    (f : Nat → String → Option AnalysisResult × Option String)
    (ts : List String) (i : Nat)
    (acc : List (String × (Option AnalysisResult × Option String)))
    (a : String) :
    a ∈ (batchGo f i ts acc).map Prod.fst ↔
      a ∈ acc.map Prod.fst ∨ a ∈ ts := by
  induction ts generalizing i acc with
  | nil => simp [batchGo]
  | cons t ts ih =>
    rw [batchGo, ih, mem_keys_dictInsert]
    simp [or_assoc]

theorem nodup_keys_batchGo
    (f : Nat → String → Option AnalysisResult × Option String)
    (ts : List String) (i : Nat)
    (acc : List (String × (Option AnalysisResult × Option String)))
    (hacc : (acc.map Prod.fst).Nodup) :
    ((batchGo f i ts acc).map Prod.fst).Nodup := by
  induction ts generalizing i acc with
  | nil => exact hacc
  | cons t ts ih =>
    rw [batchGo]
    exact ih _ _ (nodup_keys_dictInsert _ _ _ hacc)

theorem lookupD_batchGo_of_not_mem
    (f : Nat → String → Option AnalysisResult × Option String)
    (ts : List String) (i : Nat)
    (acc : List (String × (Option AnalysisResult × Option String)))
    (t : String) (ht : t ∉ ts) :
    lookupD (batchGo f i ts acc) t = lookupD acc t := by
  induction ts generalizing i acc with
  | nil => rfl
  | cons x ts ih =>
    rw [batchGo, ih _ _ (fun h => ht (List.mem_cons_of_mem x h)),
      lookupD_dictInsert_ne]
    exact fun h => ht (h ▸ List.mem_cons_self x ts)

theorem lastIdxOf_none_iff (ts : List String) (t : String) :
    lastIdxOf ts t = none ↔ t ∉ ts := by
  induction ts with
  | nil => simp [lastIdxOf]
  | cons x xs ih =>
    rw [lastIdxOf]
    cases hx : lastIdxOf xs t
    · have hmem : t ∉ xs := ih.1 hx
      by_cases hxt : x = t
      · simp [hxt]
      · have htx : t ≠ x := fun h => hxt h.symm
        simp [hxt, hmem, htx]
    · have hmem : t ∈ xs := by
        by_contra hc
        rw [ih.2 hc] at hx
        exact Option.noConfusion hx
      simp [hmem]

theorem lastIdxOf_getElem (ts : List String) (t : String) (n : Nat)
    (h : lastIdxOf ts t = some n) : ts[n]? = some t := by
  induction ts generalizing n with
  | nil => exact Option.noConfusion h
  | cons x xs ih =>
    rw [lastIdxOf] at h
    cases hx : lastIdxOf xs t with
    | some m =>
      rw [hx] at h
      obtain rfl : n = m + 1 := by
        injection h with h'
        omega
      simpa using ih m hx
    | none =>
      rw [hx] at h
      by_cases hxt : x = t
      · rw [if_pos hxt] at h
        obtain rfl : n = 0 := by
          injection h with h'
          omega
        simp [hxt]
      · rw [if_neg hxt] at h
        exact Option.noConfusion h

theorem lookupD_batchGo_last
    (f : Nat → String → Option AnalysisResult × Option String)
    (ts : List String) (t : String) (n : Nat) (i : Nat)
    (acc : List (String × (Option AnalysisResult × Option String)))
    (h : lastIdxOf ts t = some n) :
    lookupD (batchGo f i ts acc) t = some (f (i + n) t) := by
  induction ts generalizing i acc n with
  | nil => exact Option.noConfusion h
  | cons x xs ih =>
    rw [lastIdxOf] at h
    cases hx : lastIdxOf xs t with
    | some m =>
      rw [hx] at h
      obtain rfl : n = m + 1 := by
        injection h with h'
        omega
      rw [batchGo, ih m (i + 1) (dictInsert acc x (f i x)) hx]
      congr 2
      omega
    | none =>
      rw [hx] at h
      by_cases hxt : x = t
      · rw [if_pos hxt] at h
        obtain rfl : n = 0 := by
          injection h with h'
          omega
        have hmem : t ∉ xs := (lastIdxOf_none_iff xs t).1 hx
        rw [batchGo, lookupD_batchGo_of_not_mem _ _ _ _ _ hmem, hxt,
          lookupD_dictInsert_self]
        simp
      · rw [if_neg hxt] at h
        exact Option.noConfusion h
/-- Claim C5 (confirmed). The batch result dict has exactly one entry per
input ticker (keys are exactly the input tickers, without duplicates), the
batch never aborts regardless of per-call outcomes, and every entry is
either the `(None, None)` sentinel recorded for a caught exception or the
value actually returned by the `analyze` call at one of that ticker's
positions in the input order. -/
theorem batch_isolation (envs : Nat → AnalyzeEnv) (tickers : List String)
    (td : Option String) (ur : Bool) :
    ((batch_analyze envs tickers td ur).map Prod.fst).Nodup ∧
    (∀ t, t ∈ (batch_analyze envs tickers td ur).map Prod.fst ↔
      t ∈ tickers) ∧
    (∀ t, t ∈ tickers →
      ∃ v, lookupD (batch_analyze envs tickers td ur) t = some v ∧
        (v = (none, none) ∨ ∃ i, tickers[i]? = some t ∧
          (analyze (envs i) t td ur true).ret = .ok v)) := by
  refine ⟨?_, fun t => ?_, fun t ht => ?_⟩
  · exact nodup_keys_batchGo _ tickers 0 [] (by simp)
  · rw [batch_analyze, mem_keys_batchGo]
    simp
  · have hn : ∃ n, lastIdxOf tickers t = some n := by
      cases hx : lastIdxOf tickers t with
      | none =>
        exact absurd ((lastIdxOf_none_iff tickers t).1 hx) (not_not_intro ht)
      | some n => exact ⟨n, rfl⟩
    obtain ⟨n, hn⟩ := hn
    have hl := lookupD_batchGo_last (batchEntry envs td ur) tickers t n 0 [] hn
    rw [Nat.zero_add] at hl
    refine ⟨batchEntry envs td ur n t, hl, ?_⟩
    rw [batchEntry]
    cases hr : (analyze (envs n) t td ur true).ret with
    | error e => left; rfl
    | ok rd =>
      right
      exact ⟨n, lastIdxOf_getElem tickers t n hn, by rw [hr]; rfl⟩

def demoEnvs : Nat → AnalyzeEnv := fun i => if i = 0 then envOkay else envCrash

theorem batch_isolation_witness :
    ∃ v, lookupD (batch_analyze demoEnvs ["AAA", "BBB"] none true) "BBB" =
      some v ∧
      (v = (none, none) ∨ ∃ i, ["AAA", "BBB"][i]? = some "BBB" ∧
        (analyze (demoEnvs i) "BBB" none true true).ret = .ok v) :=
  (batch_isolation demoEnvs ["AAA", "BBB"] none true).2.2 "BBB" (by simp)

def envSell : AnalyzeEnv := { envOkay with engine := fun _ _ => .ok (demoResult, "SELL") }

def dupEnvs : Nat → AnalyzeEnv := fun i => if i = 0 then envSell else envOkay

/-- Claim C10 (confirmed). The batch mapping is keyed by the ticker strings
exactly as supplied (duplicates collapse, and the surviving entry is the
outcome of the call at the ticker's last occurrence), while the artifact
that `analyze` persists carries the upper-cased, whitespace-stripped
ticker. -/
theorem batch_raw_keys_last_attempt (envs : Nat → AnalyzeEnv)
    (tickers : List String) (td : Option String) (ur : Bool) :
    (∀ t, t ∈ (batch_analyze envs tickers td ur).map Prod.fst ↔
      t ∈ tickers) ∧
    (∀ t n, lastIdxOf tickers t = some n →
      lookupD (batch_analyze envs tickers td ur) t =
        some (batchEntry envs td ur n t)) ∧
    (∀ env t0 td2 ur2 j, (analyze env t0 td2 ur2 true).saved = some j →
      jGet j "ticker" = some (JValue.str (normalizeTicker t0))) := by
  refine ⟨fun t => ?_, fun t n hn => ?_, fun env t0 td2 ur2 j hj => ?_⟩
  · rw [batch_analyze, mem_keys_batchGo]
    simp
  · have hl := lookupD_batchGo_last (batchEntry envs td ur) tickers t n 0 [] hn
    rw [Nat.zero_add] at hl
    exact hl
  · cases hpre : env.preErr with
    | some e => simp [analyze, hpre] at hj
    | none =>
      cases heng : env.engine (normalizeTicker t0) (resolveDate env td2 ur2) with
      | error e => simp [analyze, hpre, heng] at hj
      | ok rd =>
        obtain ⟨r, d⟩ := rd
        cases hsv : env.saveFS with
        | error e => simp [analyze, hpre, heng, hsv] at hj
        | ok u =>
          simp only [analyze, hpre, heng, hsv] at hj
          rw [← Option.some_inj.1 hj]
          rfl

theorem batch_raw_keys_witness :
    lookupD (batch_analyze dupEnvs ["amd", "amd"] none true) "amd" =
      some (batchEntry dupEnvs none true 1 "amd") ∧
    ("AMD" ∈ (batch_analyze dupEnvs ["amd", "amd"] none true).map Prod.fst ↔
      "AMD" ∈ ["amd", "amd"]) ∧
    batchEntry dupEnvs none true 1 "amd" = (some demoResult, some "BUY") := by
  obtain ⟨h1, h2, h3⟩ :=
    batch_raw_keys_last_attempt dupEnvs ["amd", "amd"] none true
  exact ⟨h2 "amd" 1 (by decide), h1 "AMD", rfl⟩
end TradingAgentsSpec
